import Mathlib

/-!
armv7m_systick: millisecond / microsecond clock on the SysTick down-counter

Shallow embedding of `system/STM32L4xx/Source/armv7m_systick.c`.

* `uint32_t` values are natural numbers reduced modulo `2^32` after every
  operation that can leave the range, `uint64_t` values modulo `2^64`.
* The control block `armv7m_systick_control`, the three SysTick registers the
  file touches and the list of calls handed to `armv7m_pendsv_enqueue` form
  one explicit state record that every operation transforms.
* Pointers are natural numbers, `0` being `NULL`.
-/

namespace Systick

/-- Modulus of `uint32_t` arithmetic. -/
def U32 : Nat := 4294967296

/-- Modulus of `uint64_t` arithmetic. -/
def U64 : Nat := 18446744073709551616

/-- Subtraction of two `uint32_t` values, wrapping like the C operator. -/
def sub32 (a b : Nat) : Nat := (a + U32 - b % U32) % U32

/-- Subtraction of two `uint64_t` values, wrapping like the C operator. -/
def sub64 (a b : Nat) : Nat := (a + U64 - b % U64) % U64

/-- Modelled from the spec: the CMSIS core header with the SysTick register
block is not among the sources. The spec presents the hardware timer as a
readable and writable down-counter, a writable reload value and control bits;
the three control masks carry their CMSIS values. -/
def SysTick_CTRL_ENABLE_Msk : Nat := 1

/-- Modelled from the spec: interrupt-enable control bit of the hardware timer
(CMSIS value; the header is not among the sources). -/
def SysTick_CTRL_TICKINT_Msk : Nat := 2

/-- Modelled from the spec: clock-source control bit of the hardware timer
(CMSIS value; the header is not among the sources). -/
def SysTick_CTRL_CLKSOURCE_Msk : Nat := 4

/-- One call handed to `armv7m_pendsv_enqueue (routine, context, data)`. -/
structure PendsvCall where
  routine : Nat
  context : Nat
  data : Nat
  deriving DecidableEq, Repr

/-- The record `armv7m_systick_control_t` together with the hardware the file
reads and writes: `VAL`, `LOAD`, `CTRL` are the SysTick registers, `priority`
is the value given to `NVIC_SetPriority`, `pendsv` lists the calls handed to
the deferred-call queue, oldest first. -/
structure State where
  micros : Nat
  millis : Nat
  count : Nat
  cycle : Nat
  frac : Nat
  accum : Nat
  scale : Nat
  callback : Nat
  context : Nat
  VAL : Nat
  LOAD : Nat
  CTRL : Nat
  priority : Nat
  pendsv : List PendsvCall
  deriving DecidableEq, Repr

/-- Every field holds a value of its C type. -/
def State.WF (s : State) : Prop :=
  s.micros < U64 ∧ s.millis < U64 ∧ s.count < U64 ∧
  s.cycle < U32 ∧ s.frac < U32 ∧ s.accum < U32 ∧ s.scale < U32 ∧
  s.VAL < U32 ∧ s.LOAD < U32

instance (s : State) : Decidable s.WF := by
  unfold State.WF; infer_instance

/-- `armv7m_systick_millis`. -/
def armv7m_systick_millis (s : State) : Nat := s.millis

/-- The 32-bit product `((cycle - 1) - count) * scale` of
`armv7m_systick_micros`, `count` being the value read from `SysTick->VAL`. -/
def micros_product (s : State) : Nat :=
  (sub32 (sub32 s.cycle 1) s.VAL * s.scale) % U32

/-- The sub-period increment `product >> 22` of `armv7m_systick_micros`. -/
def micros_increment (s : State) : Nat := micros_product s / 4194304

/-- `armv7m_systick_micros` in a state where no tick interrupts the
snapshot loop: the loop body runs once, reading `micros` and `SysTick->VAL`
from the state, and the increment is added in 64 bits. -/
def armv7m_systick_micros (s : State) : Nat :=
  (s.micros + micros_increment s) % U64

/-- The loop of `armv7m_systick_delay`: `millis` is the 32-bit local,
each element of the list is the value of `control.millis` read in the loop
condition after one `armv7m_core_yield`. The result is the number of yields
before the one after which the loop exits, or `none` while the loop is still
running when the observations end. -/
def delayLoop (millis delay : Nat) : List Nat → Nat → Option Nat
  | [], _ => none
  | m :: rest, i =>
    if sub64 m millis < delay then delayLoop millis delay rest (i + 1)
    else some i

/-- `armv7m_systick_delay`: the local `uint32_t millis` receives the 64-bit
counter, then the loop runs. -/
def armv7m_systick_delay (s : State) (delay : Nat) (obs : List Nat) : Option Nat :=
  delayLoop (s.millis % U32) delay obs 0

/-- First statement of `armv7m_systick_notify`: `callback = NULL`, as a step
of the sequential function. The field is not `volatile` and the third
statement overwrites it before anything reads it, so the state after this
step is one of the function's own evaluation, not one that a compiled build
has to leave in memory. -/
def notify_clear (s : State) : State := { s with callback := 0 }

/-- Second store of `armv7m_systick_notify`: `context = context`. -/
def notify_context (context : Nat) (s : State) : State := { s with context := context }

/-- Third store of `armv7m_systick_notify`: `callback = callback`. -/
def notify_callback (callback : Nat) (s : State) : State := { s with callback := callback }

/-- `armv7m_systick_notify`: the three assignments in program order. Neither
`callback` nor `context` is `volatile` (unlike `micros` and `millis`). -/
def armv7m_systick_notify (callback context : Nat) (s : State) : State :=
  notify_callback callback (notify_context context (notify_clear s))

/-- `armv7m_systick_initialize`; `sysclk` is the value returned by
`stm32l4_system_sysclk ()`. -/
def armv7m_systick_initialize (priority sysclk : Nat) (s : State) : State :=
  let cycle := (sysclk / 1000) % U32
  let frac := sub32 sysclk ((cycle * 1000) % U32)
  { s with
    priority := priority
    cycle := cycle
    frac := frac
    accum := 0
    CTRL := SysTick_CTRL_CLKSOURCE_Msk + SysTick_CTRL_TICKINT_Msk + SysTick_CTRL_ENABLE_Msk
    VAL := sub32 cycle 1
    LOAD := sub32 cycle 1
    scale := (4194304000000 / sysclk) % U32
    millis := 0
    micros := 0 }

/-- The `while (count >= cycle)` loop of `armv7m_systick_enable` on the
triple `(count, millis, micros)`. Each unit of fuel pays for one evaluation
of the loop condition; `none` means the fuel ran out with the loop still
running. -/
def enableLoop : Nat → Nat → Nat → Nat → Nat → Option (Nat × Nat × Nat)
  | 0, _, _, _, _ => none
  | fuel + 1, cycle, count, millis, micros =>
    if count ≥ cycle then
      enableLoop fuel cycle (sub32 count cycle) ((millis + 1) % U64) ((micros + 1000) % U64)
    else some (count, millis, micros)

/-- `o_count` of `armv7m_systick_enable`: `(cycle - 1) - SysTick->VAL`. -/
def enable_o_count (s : State) : Nat := sub32 (sub32 s.cycle 1) s.VAL

/-- The new `cycle` of `armv7m_systick_enable`: `SystemCoreClock / 1000`. -/
def enable_cycle (SystemCoreClock : Nat) : Nat := (SystemCoreClock / 1000) % U32

/-- The rescaled offset `(o_count * cycle) / o_cycle` of
`armv7m_systick_enable`, the product taken in 32 bits. -/
def enable_rescaled (SystemCoreClock : Nat) (s : State) : Nat :=
  ((enable_o_count s * enable_cycle SystemCoreClock) % U32) / s.cycle

/-- `delta` of `armv7m_systick_enable`: `stm32l4_rtc_get_count () - count`. -/
def enable_delta (rtc : Nat) (s : State) : Nat := sub64 rtc s.count

/-- The sub-millisecond term
`(((uint32_t)(delta * 1000ull) & 32767) * cycle) / 32768`. -/
def enable_submillis (SystemCoreClock rtc : Nat) (s : State) : Nat :=
  ((((((enable_delta rtc s * 1000) % U64) % U32) % 32768) * enable_cycle SystemCoreClock) % U32)
    / 32768

/-- The value of `count` when the loop of `armv7m_systick_enable` starts. -/
def enable_count (SystemCoreClock rtc : Nat) (s : State) : Nat :=
  (enable_rescaled SystemCoreClock s + enable_submillis SystemCoreClock rtc s) % U32

/-- `armv7m_systick_enable`; `SystemCoreClock` is the global of that name,
`rtc` the value returned by `stm32l4_rtc_get_count ()`. The division by
`o_cycle` is undefined for `o_cycle = 0`, where the result is `none`, as it
is when the loop has not ended within `fuel` evaluations of its condition. -/
def armv7m_systick_enable (fuel SystemCoreClock rtc : Nat) (s : State) : Option State :=
  if s.cycle = 0 then none
  else
    let cycle := enable_cycle SystemCoreClock
    let delta := enable_delta rtc s
    match enableLoop fuel cycle (enable_count SystemCoreClock rtc s) s.millis s.micros with
    | none => none
    | some (count, millis, _) =>
      let millis := (millis + ((delta * 1000) % U64) / 32768) % U64
      some { s with
        cycle := cycle
        VAL := sub32 (sub32 cycle 1) count
        LOAD := sub32 cycle 1
        CTRL := SysTick_CTRL_CLKSOURCE_Msk + SysTick_CTRL_TICKINT_Msk + SysTick_CTRL_ENABLE_Msk
        millis := millis
        micros := (millis * 1000) % U64 }

/-- `armv7m_systick_disable`; `rtc` is the value returned by
`stm32l4_rtc_get_count ()`. -/
def armv7m_systick_disable (rtc : Nat) (s : State) : State :=
  { s with CTRL := SysTick_CTRL_CLKSOURCE_Msk, count := rtc % U64 }

/-- The fractional block of `SysTick_Handler`: runs only for `frac ≠ 0`. -/
def handler_frac (s : State) : State :=
  if s.frac ≠ 0 then
    let accum := (s.accum + s.frac) % U32
    if accum ≥ 1000 then
      { s with accum := sub32 accum 1000, LOAD := (sub32 s.cycle 1 + 1) % U32 }
    else
      { s with accum := accum, LOAD := sub32 s.cycle 1 }
  else s

/-- The notification block of `SysTick_Handler`: a registered callback is
handed to `armv7m_pendsv_enqueue` with the context and `(uint32_t) millis`. -/
def handler_notify (s : State) : State :=
  if s.callback ≠ 0 then
    { s with pendsv := s.pendsv ++ [⟨s.callback, s.context, s.millis % U32⟩] }
  else s

/-- `SysTick_Handler`. -/
def SysTick_Handler (s : State) : State :=
  handler_notify (handler_frac
    { s with micros := (s.micros + 1000) % U64, millis := (s.millis + 1) % U64 })

/-- The handler run `n` times in a row. -/
def ticks : Nat → State → State
  | 0, s => s
  | n + 1, s => ticks n (SysTick_Handler s)

/-- Whether the reload value in `s` is the long one, `(cycle - 1) + 1`. -/
def longPeriod (s : State) : Bool := s.LOAD = (sub32 s.cycle 1 + 1) % U32

/-- Number of handler runs, among `n` in a row, that leave the long reload
value programmed. -/
def longTicks : Nat → State → Nat
  | 0, _ => 0
  | n + 1, s =>
    (if longPeriod (SysTick_Handler s) then 1 else 0) + longTicks n (SysTick_Handler s)

/-- Hardware counts programmed by `n` handler runs in a row: a period with
reload value `LOAD` lasts `LOAD + 1` counts. -/
def programmedCounts : Nat → State → Nat
  | 0, _ => 0
  | n + 1, s => ((SysTick_Handler s).LOAD + 1) + programmedCounts n (SysTick_Handler s)

/-- An arbitrary initial content of the state before `armv7m_systick_initialize`. -/
def zeroState : State :=
  { micros := 0, millis := 0, count := 0, cycle := 0, frac := 0, accum := 0, scale := 0,
    callback := 0, context := 0, VAL := 0, LOAD := 0, CTRL := 0, priority := 0, pendsv := [] }

/-- The state left by `armv7m_systick_initialize` at frequency `f`, started
from the zeroed static storage of the C program. -/
def initState (f : Nat) : State := armv7m_systick_initialize 0 f zeroState

/-- The state in which `armv7m_systick_disable` is called 60000 counts into
a period at 80 MHz: the counter has come down from 79999 to 19999. -/
def midPeriodState : State := { initState 80000000 with VAL := 19999 }

/-- A state 2^32 - 1 milliseconds (49.7 days) after initialisation. -/
def lateState : State := { zeroState with millis := 4294967295 }

/-- One event in the life of the clock after initialisation: a handler run,
a call of `armv7m_systick_notify`, the hardware counter moving to a new value,
a call of `armv7m_systick_disable` (with the backup counter it reads), a call
of `armv7m_systick_enable` (with the fuel of its loop, the `SystemCoreClock`
and the backup counter it reads). -/
inductive Op where
  | tick
  | notify (callback context : Nat)
  | counter (val : Nat)
  | disable (rtc : Nat)
  | enable (fuel SystemCoreClock rtc : Nat)
  deriving DecidableEq, Repr

/-- The effect of one event; `none` when `armv7m_systick_enable` does not
return. -/
def step : Op → State → Option State
  | .tick, s => some (SysTick_Handler s)
  | .notify callback context, s => some (armv7m_systick_notify callback context s)
  | .counter val, s => some { s with VAL := val % U32 }
  | .disable rtc, s => some (armv7m_systick_disable rtc s)
  | .enable fuel SystemCoreClock rtc, s => armv7m_systick_enable fuel SystemCoreClock rtc s

/-- The effect of a sequence of events, first event first. -/
def run : List Op → State → Option State
  | [], s => some s
  | op :: ops, s =>
    match step op s with
    | none => none
    | some t => run ops t

/-- The exact conversion of `k` hardware counts at frequency `f` into whole
microseconds, `k * 10^6 / f` rounded down, which the shift by 22 bits in
`armv7m_systick_micros` stands for. -/
def exactMicros (f k : Nat) : Nat := k * 1000000 / f

/-- A sequence of events with a frequency change: two handler runs around a
registration, then the timer is disabled 60000 counts into a period and
enabled again 250 ms later at 1,000,005 Hz, and one more handler run. -/
def sampleEvents : List Op :=
  [.tick, .notify 7 9, .tick, .counter 19999, .disable 100, .enable 2 1000005 8292, .tick]

/-- The state the events of `sampleEvents` lead to after initialisation at
80,000,999 Hz. -/
def sampleFinal : State :=
  match run sampleEvents (initState 80000999) with
  | some s => s
  | none => zeroState

/-- States on which the fractional scheme is analysed: remainder and
accumulator below 1000, and a remainder of zero goes with a normal reload
value. -/
def FracInv (s : State) : Prop :=
  s.frac < 1000 ∧ s.accum < 1000 ∧ (s.frac = 0 → s.LOAD = sub32 s.cycle 1)

/-! ## The tick handler, field by field -/

theorem handler_notify_fields (s : State) :
    (handler_notify s).micros = s.micros ∧ (handler_notify s).millis = s.millis ∧
    (handler_notify s).cycle = s.cycle ∧ (handler_notify s).frac = s.frac ∧
    (handler_notify s).accum = s.accum ∧ (handler_notify s).LOAD = s.LOAD ∧
    (handler_notify s).callback = s.callback ∧ (handler_notify s).context = s.context := by
  unfold handler_notify
  split <;> simp

theorem handler_frac_fields (s : State) :
    (handler_frac s).micros = s.micros ∧ (handler_frac s).millis = s.millis ∧
    (handler_frac s).cycle = s.cycle ∧ (handler_frac s).frac = s.frac ∧
    (handler_frac s).callback = s.callback ∧ (handler_frac s).context = s.context ∧
    (handler_frac s).pendsv = s.pendsv := by
  unfold handler_frac
  split
  · dsimp only
    split <;> simp
  · simp

theorem handler_millis (s : State) : (SysTick_Handler s).millis = (s.millis + 1) % U64 := by
  unfold SysTick_Handler
  rw [(handler_notify_fields _).2.1, (handler_frac_fields _).2.1]

theorem handler_micros (s : State) : (SysTick_Handler s).micros = (s.micros + 1000) % U64 := by
  unfold SysTick_Handler
  rw [(handler_notify_fields _).1, (handler_frac_fields _).1]

theorem handler_cycle (s : State) : (SysTick_Handler s).cycle = s.cycle := by
  unfold SysTick_Handler
  rw [(handler_notify_fields _).2.2.1, (handler_frac_fields _).2.2.1]

theorem handler_frac_eq (s : State) : (SysTick_Handler s).frac = s.frac := by
  unfold SysTick_Handler
  rw [(handler_notify_fields _).2.2.2.1, (handler_frac_fields _).2.2.2.1]

theorem handler_callback (s : State) : (SysTick_Handler s).callback = s.callback := by
  unfold SysTick_Handler
  rw [(handler_notify_fields _).2.2.2.2.2.2.1, (handler_frac_fields _).2.2.2.2.1]

theorem handler_context (s : State) : (SysTick_Handler s).context = s.context := by
  unfold SysTick_Handler
  rw [(handler_notify_fields _).2.2.2.2.2.2.2, (handler_frac_fields _).2.2.2.2.2.1]

/-- The accumulator after one handler run, for an accumulator and a
remainder below 1000. -/
theorem handler_accum (s : State) (hf : s.frac < 1000) (ha : s.accum < 1000) :
    (SysTick_Handler s).accum = (s.accum + s.frac) % 1000 := by
  unfold SysTick_Handler
  rw [(handler_notify_fields _).2.2.2.2.1]
  unfold handler_frac
  by_cases h0 : s.frac = 0
  · simp only [h0, ne_eq, not_true_eq_false, if_false, Nat.add_zero]
    omega
  · have e : (s.accum + s.frac) % U32 = s.accum + s.frac := by
      simp only [U32]; omega
    simp only [h0, ne_eq, not_false_eq_true, if_true, e]
    split
    · simp only [sub32, U32]; omega
    · dsimp only; omega

/-- The reload value after one handler run with a nonzero remainder. -/
theorem handler_LOAD (s : State) (h0 : s.frac ≠ 0) (hf : s.frac < 1000) (ha : s.accum < 1000) :
    (SysTick_Handler s).LOAD =
      if s.accum + s.frac ≥ 1000 then (sub32 s.cycle 1 + 1) % U32 else sub32 s.cycle 1 := by
  unfold SysTick_Handler
  rw [(handler_notify_fields _).2.2.2.2.2.1]
  unfold handler_frac
  have e : (s.accum + s.frac) % U32 = s.accum + s.frac := by
    simp only [U32]; omega
  simp only [h0, ne_eq, not_false_eq_true, if_true, e]
  split <;> rfl

/-- The reload value is left alone by a handler run with remainder zero. -/
theorem handler_LOAD_zero (s : State) (h0 : s.frac = 0) :
    (SysTick_Handler s).LOAD = s.LOAD := by
  unfold SysTick_Handler
  rw [(handler_notify_fields _).2.2.2.2.2.1]
  unfold handler_frac
  simp [h0]

/-- The normal and the long reload value differ. -/
theorem sub32_succ_ne (c : Nat) : sub32 c 1 ≠ (sub32 c 1 + 1) % U32 := by
  simp only [sub32, U32]; omega

theorem FracInv_handler (s : State) (h : FracInv s) : FracInv (SysTick_Handler s) := by
  obtain ⟨hf, ha, hl⟩ := h
  refine ⟨?_, ?_, ?_⟩
  · rw [handler_frac_eq]; exact hf
  · rw [handler_accum s hf ha]; omega
  · intro h0
    rw [handler_frac_eq] at h0
    rw [handler_LOAD_zero s h0, handler_cycle]; exact hl h0

/-- One handler run leaves the long reload value exactly when the
accumulator crosses 1000. -/
theorem handler_long (s : State) (h : FracInv s) :
    (if longPeriod (SysTick_Handler s) then 1 else 0) = (s.accum + s.frac) / 1000 := by
  obtain ⟨hf, ha, hl⟩ := h
  unfold longPeriod
  rw [handler_cycle]
  by_cases h0 : s.frac = 0
  · rw [handler_LOAD_zero s h0, hl h0]
    have := sub32_succ_ne s.cycle
    simp only [decide_eq_true_eq, this, if_false]
    omega
  · rw [handler_LOAD s h0 hf ha]
    by_cases hc : s.accum + s.frac ≥ 1000
    · simp only [hc, if_true, decide_eq_true_eq]; omega
    · have := sub32_succ_ne s.cycle
      simp only [hc, if_false, decide_eq_true_eq, this]; omega

/-- Accumulator and number of long periods after `n` handler runs. -/
theorem ticks_frac (n : Nat) : ∀ s : State, FracInv s →
    (ticks n s).accum = (s.accum + n * s.frac) % 1000 ∧
    longTicks n s = (s.accum + n * s.frac) / 1000 := by
  induction n with
  | zero =>
    intro s h
    obtain ⟨_, ha, _⟩ := h
    simp only [ticks, longTicks, Nat.zero_mul, Nat.add_zero]
    omega
  | succ n ih =>
    intro s h
    have h' := FracInv_handler s h
    obtain ⟨e1, e2⟩ := ih (SysTick_Handler s) h'
    have hl := handler_long s h
    obtain ⟨hf, ha, _⟩ := h
    rw [handler_accum s hf ha, handler_frac_eq] at e1 e2
    have em : (n + 1) * s.frac = n * s.frac + s.frac := Nat.succ_mul n s.frac
    simp only [ticks, longTicks, e1, e2, hl, em]
    omega

/-- Hardware counts programmed by `n` handler runs, for a cycle of at least
one count. -/
theorem ticks_counts (n : Nat) : ∀ s : State, FracInv s → 1 ≤ s.cycle → s.cycle < U32 →
    programmedCounts n s = n * s.cycle + (s.accum + n * s.frac) / 1000 := by
  induction n with
  | zero =>
    intro s h _ _
    obtain ⟨_, ha, _⟩ := h
    simp only [programmedCounts, Nat.zero_mul, Nat.add_zero, Nat.zero_add]
    omega
  | succ n ih =>
    intro s h hc1 hc2
    have h' := FracInv_handler s h
    have e := ih (SysTick_Handler s) h' (by rw [handler_cycle]; exact hc1)
      (by rw [handler_cycle]; exact hc2)
    obtain ⟨hf, ha, hl⟩ := h
    rw [handler_accum s hf ha, handler_frac_eq, handler_cycle] at e
    have eL : (SysTick_Handler s).LOAD + 1 = s.cycle + (s.accum + s.frac) / 1000 := by
      by_cases h0 : s.frac = 0
      · rw [handler_LOAD_zero s h0, hl h0]
        simp only [sub32, U32] at *; omega
      · rw [handler_LOAD s h0 hf ha]
        split
        · simp only [sub32, U32] at *; omega
        · simp only [sub32, U32] at *; omega
    have em : (n + 1) * s.frac = n * s.frac + s.frac := Nat.succ_mul n s.frac
    have ec : (n + 1) * s.cycle = n * s.cycle + s.cycle := Nat.succ_mul n s.cycle
    simp only [programmedCounts, e, eL, em, ec]
    omega

/-- The two counters after `n` handler runs. -/
theorem ticks_clock (n : Nat) : ∀ s : State, s.millis < U64 → s.micros < U64 →
    (ticks n s).millis = (s.millis + n) % U64 ∧
    (ticks n s).micros = (s.micros + 1000 * n) % U64 := by
  induction n with
  | zero =>
    intro s hm hu
    simp only [ticks, Nat.add_zero, Nat.mul_zero]
    exact ⟨(Nat.mod_eq_of_lt hm).symm, (Nat.mod_eq_of_lt hu).symm⟩
  | succ n ih =>
    intro s hm hu
    have hm' : (SysTick_Handler s).millis < U64 := by
      rw [handler_millis]; exact Nat.mod_lt _ (by decide)
    have hu' : (SysTick_Handler s).micros < U64 := by
      rw [handler_micros]; exact Nat.mod_lt _ (by decide)
    obtain ⟨e1, e2⟩ := ih (SysTick_Handler s) hm' hu'
    rw [handler_millis] at e1
    rw [handler_micros] at e2
    simp only [ticks, e1, e2, U64]
    omega

/-! ## Initialisation -/

/-- The fields written by `armv7m_systick_initialize` at a frequency that
fits 32 bits and is at least 1000. -/
theorem init_fields (p f : Nat) (s : State) (hlo : 1000 ≤ f) (hhi : f < U32) :
    ( armv7m_systick_initialize p f s).cycle = f / 1000 ∧
    ( armv7m_systick_initialize p f s).frac = f % 1000 ∧
    ( armv7m_systick_initialize p f s).accum = 0 ∧
    ( armv7m_systick_initialize p f s).millis = 0 ∧
    ( armv7m_systick_initialize p f s).micros = 0 ∧
    ( armv7m_systick_initialize p f s).scale = 4194304000000 / f ∧
    ( armv7m_systick_initialize p f s).VAL = f / 1000 - 1 ∧
    ( armv7m_systick_initialize p f s).LOAD = f / 1000 - 1 := by
  have hs : 4194304000000 / f < 4294967296 := by
    apply Nat.div_lt_of_lt_mul
    omega
  simp only [U32] at hhi
  simp only [ armv7m_systick_initialize, sub32, U32]
  refine ⟨?_, ?_, trivial, trivial, trivial, Nat.mod_eq_of_lt hs, ?_, ?_⟩ <;> omega

theorem initialized_FracInv (p f : Nat) (s0 : State) (hlo : 1000 ≤ f) (hhi : f < U32) :
    FracInv ( armv7m_systick_initialize p f s0) := by
  obtain ⟨hc, hf, ha, _, _, _, _, hl⟩ := init_fields p f s0 hlo hhi
  unfold FracInv
  rw [hf, ha, hl, hc]
  simp only [U32] at hhi
  refine ⟨?_, ?_, ?_⟩
  · omega
  · omega
  · intro _
    simp only [sub32, U32]; omega

/-- The remainder is the same after any number of handler runs. -/
theorem ticks_frac_eq (n : Nat) : ∀ s : State, (ticks n s).frac = s.frac := by
  induction n with
  | zero => intro s; rfl
  | succ n ih => intro s; simp only [ticks, ih, handler_frac_eq]

/-! ## Claims about the tick handler -/

/-- C1: from every state whose two counters are 64-bit values, whatever the
remainder `frac`, `N` handler runs in a row add `N` to `millis` and `1000 * N`
to `micros`, both modulo `2^64`; after initialisation at 80,000,000 Hz (any
priority, any earlier state) and 1000 runs, `millis = 1000` and
`micros = 1000000`. -/
theorem C1_ticks_advance_clock (s : State) (N : Nat)
    (hm : s.millis < U64) (hu : s.micros < U64) :
    (ticks N s).millis = (s.millis + N) % U64 ∧
    (ticks N s).micros = (s.micros + 1000 * N) % U64 ∧
    (∀ p s0, (ticks 1000 ( armv7m_systick_initialize p 80000000 s0)).millis = 1000) ∧
    (∀ p s0, (ticks 1000 ( armv7m_systick_initialize p 80000000 s0)).micros = 1000000) := by
  obtain ⟨e1, e2⟩ := ticks_clock N s hm hu
  have hz : ∀ p s0, ( armv7m_systick_initialize p 80000000 s0).millis = 0 ∧
      ( armv7m_systick_initialize p 80000000 s0).micros = 0 := fun _ _ => ⟨rfl, rfl⟩
  refine ⟨e1, e2, ?_, ?_⟩
  · intro p s0
    obtain ⟨z1, z2⟩ := hz p s0
    rw [(ticks_clock 1000 _ (by rw [z1]; decide) (by rw [z2]; decide)).1, z1]
    decide
  · intro p s0
    obtain ⟨z1, z2⟩ := hz p s0
    rw [(ticks_clock 1000 _ (by rw [z1]; decide) (by rw [z2]; decide)).2, z2]
    decide

/-- Witness of C1: three handler runs after initialisation at 1,000,005 Hz. -/
theorem C1_ticks_advance_clock_witness :
    (initState 1000005).millis < U64 ∧ (initState 1000005).micros < U64 ∧
    (ticks 3 (initState 1000005)).millis = ((initState 1000005).millis + 3) % U64 ∧
    (ticks 3 (initState 1000005)).micros = ((initState 1000005).micros + 1000 * 3) % U64 :=
  ⟨by decide, by decide,
    (C1_ticks_advance_clock (initState 1000005) 3 (by decide) (by decide)).1,
    (C1_ticks_advance_clock (initState 1000005) 3 (by decide) (by decide)).2.1⟩

/-- C2: after initialisation (any priority, any earlier state) at a frequency
`f` with `1000 ≤ f < 2^32` and `N` handler runs, the accumulator is
`(N * frac) mod 1000`, the number of runs that programmed the long reload
value is `N * frac / 1000`, the hardware counts programmed are
`N * cycle + N * frac / 1000`, and a thousand times that total plus the
accumulator is exactly `N * f`, with the accumulator below 1000: the total is
short of `N * f / 1000` by `accum / 1000`, less than one count. -/
theorem C2_drift_below_one_count (p f N : Nat) (s0 : State) (hlo : 1000 ≤ f) (hhi : f < U32) :
    (ticks N ( armv7m_systick_initialize p f s0)).accum = (N * (f % 1000)) % 1000 ∧
    longTicks N ( armv7m_systick_initialize p f s0) = N * (f % 1000) / 1000 ∧
    programmedCounts N ( armv7m_systick_initialize p f s0)
      = N * (f / 1000) + N * (f % 1000) / 1000 ∧
    1000 * programmedCounts N ( armv7m_systick_initialize p f s0)
      + (ticks N ( armv7m_systick_initialize p f s0)).accum = N * f ∧
    (ticks N ( armv7m_systick_initialize p f s0)).accum < 1000 := by
  have hinv := initialized_FracInv p f s0 hlo hhi
  obtain ⟨hc, hf, ha, _, _, _, _, _⟩ := init_fields p f s0 hlo hhi
  obtain ⟨e1, e2⟩ := ticks_frac N _ hinv
  have e3 := ticks_counts N _ hinv
    (by rw [hc]; omega) (by rw [hc]; simp only [U32] at *; omega)
  rw [hf, ha, Nat.zero_add] at e1 e2
  rw [hf, ha, hc, Nat.zero_add] at e3
  have hsplit : N * f = 1000 * (N * (f / 1000)) + N * (f % 1000) := by
    conv_lhs => rw [← Nat.div_add_mod f 1000]
    ring
  refine ⟨e1, e2, e3, ?_, ?_⟩
  · rw [e3, e1, hsplit]; omega
  · rw [e1]; omega

/-- Witness of C2: seven handler runs after initialisation at 1,000,999 Hz
leave the accumulator at 993 after six long periods. -/
theorem C2_drift_below_one_count_witness :
    1000 ≤ 1000999 ∧ 1000999 < U32 ∧
    (ticks 7 (initState 1000999)).accum = (7 * (1000999 % 1000)) % 1000 ∧
    longTicks 7 (initState 1000999) = 7 * (1000999 % 1000) / 1000 ∧
    1000 * programmedCounts 7 (initState 1000999) + (ticks 7 (initState 1000999)).accum
      = 7 * 1000999 :=
  ⟨by decide, by decide,
    (C2_drift_below_one_count 0 1000999 7 zeroState (by decide) (by decide)).1,
    (C2_drift_below_one_count 0 1000999 7 zeroState (by decide) (by decide)).2.1,
    (C2_drift_below_one_count 0 1000999 7 zeroState (by decide) (by decide)).2.2.2.1⟩

/-- C3: from every state with `0 < frac < 1000` and `accum < 1000`, a window
of 1000 handler runs programs the long reload value `(cycle - 1) + 1` in
exactly `frac` of them and brings the accumulator back to its starting value;
with a cycle of at least one count that fits 32 bits the window programs
`1000 * cycle + frac` hardware counts, so the other `1000 - frac` runs program
`cycle - 1`; after initialisation at 1,000,005 Hz (`cycle = 1000`, `frac = 5`)
exactly 5 of 1000 runs are long. -/
theorem C3_window_of_thousand_ticks (s : State)
    (h0 : 0 < s.frac) (hf : s.frac < 1000) (ha : s.accum < 1000) :
    longTicks 1000 s = s.frac ∧ (ticks 1000 s).accum = s.accum ∧
    (1 ≤ s.cycle → s.cycle < U32 → programmedCounts 1000 s = 1000 * s.cycle + s.frac) ∧
    (∀ p s0, ( armv7m_systick_initialize p 1000005 s0).cycle = 1000 ∧
      ( armv7m_systick_initialize p 1000005 s0).frac = 5 ∧
      longTicks 1000 ( armv7m_systick_initialize p 1000005 s0) = 5) := by
  have hinv : FracInv s := ⟨hf, ha, fun h => absurd h (by omega)⟩
  obtain ⟨e1, e2⟩ := ticks_frac 1000 s hinv
  refine ⟨?_, ?_, ?_, ?_⟩
  · rw [e2]; omega
  · rw [e1]; omega
  · intro hc1 hc2
    rw [ticks_counts 1000 s hinv hc1 hc2]; omega
  · intro p s0
    obtain ⟨hc, hfr, hac, _⟩ := init_fields p 1000005 s0 (by decide) (by decide)
    refine ⟨hc, hfr, ?_⟩
    rw [(ticks_frac 1000 _ (initialized_FracInv p 1000005 s0 (by decide) (by decide))).2,
      hfr, hac]

/-- Witness of C3: the window starting 137 handler runs after initialisation
at 1,000,005 Hz. -/
theorem C3_window_of_thousand_ticks_witness :
    0 < (ticks 137 (initState 1000005)).frac ∧
    (ticks 137 (initState 1000005)).frac < 1000 ∧
    (ticks 137 (initState 1000005)).accum < 1000 ∧
    longTicks 1000 (ticks 137 (initState 1000005)) = (ticks 137 (initState 1000005)).frac :=
  have hinv := (ticks_frac 137 (initState 1000005)
    (initialized_FracInv 0 1000005 zeroState (by decide) (by decide))).1
  have h1 : (ticks 137 (initState 1000005)).frac = 5 := by rw [ticks_frac_eq]; decide
  have h2 : (ticks 137 (initState 1000005)).accum = 685 := by rw [hinv]; decide
  ⟨by rw [h1]; decide, by rw [h1]; decide, by rw [h2]; decide,
    (C3_window_of_thousand_ticks (ticks 137 (initState 1000005))
      (by rw [h1]; decide) (by rw [h1]; decide) (by rw [h2]; decide)).1⟩

/-- C10: for `1000 ≤ f < 2^32`, `armv7m_systick_initialize` leaves
`cycle = f / 1000 ≥ 1`, `frac = f - cycle * 1000 = f mod 1000`, `accum = 0`,
`millis = 0`, `micros = 0`, `scale = 2^22 * 1000000 / f` (below `2^32`, so
stored whole), and the hardware counter and reload value at `cycle - 1`; at
80,000,000 Hz `cycle = 80000`, `frac = 0`, at 1,000,005 Hz `cycle = 1000`,
`frac = 5`. -/
theorem C10_initialize_state (p f : Nat) (s : State) (hlo : 1000 ≤ f) (hhi : f < U32) :
    ( armv7m_systick_initialize p f s).cycle = f / 1000 ∧
    1 ≤ ( armv7m_systick_initialize p f s).cycle ∧
    ( armv7m_systick_initialize p f s).frac
      = f - ( armv7m_systick_initialize p f s).cycle * 1000 ∧
    ( armv7m_systick_initialize p f s).frac = f % 1000 ∧
    ( armv7m_systick_initialize p f s).accum = 0 ∧
    ( armv7m_systick_initialize p f s).millis = 0 ∧
    ( armv7m_systick_initialize p f s).micros = 0 ∧
    ( armv7m_systick_initialize p f s).scale = 2 ^ 22 * 1000000 / f ∧
    2 ^ 22 * 1000000 / f < U32 ∧
    ( armv7m_systick_initialize p f s).VAL = ( armv7m_systick_initialize p f s).cycle - 1 ∧
    ( armv7m_systick_initialize p f s).LOAD = ( armv7m_systick_initialize p f s).cycle - 1 ∧
    ( armv7m_systick_initialize p 80000000 s).cycle = 80000 ∧
    ( armv7m_systick_initialize p 80000000 s).frac = 0 ∧
    ( armv7m_systick_initialize p 1000005 s).cycle = 1000 ∧
    ( armv7m_systick_initialize p 1000005 s).frac = 5 := by
  obtain ⟨hc, hf, ha, hm, hu, hs, hv, hl⟩ := init_fields p f s hlo hhi
  have hlt : 2 ^ 22 * 1000000 / f < U32 := by
    apply Nat.div_lt_of_lt_mul
    simp only [U32]; omega
  refine ⟨hc, ?_, ?_, hf, ha, hm, hu, ?_, hlt, ?_, ?_, ?_, ?_, ?_, ?_⟩
  · rw [hc]; omega
  · rw [hf, hc]; omega
  · rw [hs]; norm_num
  · rw [hv, hc]
  · rw [hl, hc]
  · exact (init_fields p 80000000 s (by decide) (by decide)).1
  · exact (init_fields p 80000000 s (by decide) (by decide)).2.1
  · exact (init_fields p 1000005 s (by decide) (by decide)).1
  · exact (init_fields p 1000005 s (by decide) (by decide)).2.1

/-- Witness of C10: initialisation at 48,005,120 Hz with priority 3. -/
theorem C10_initialize_state_witness :
    1000 ≤ 48005120 ∧ 48005120 < U32 ∧
    ( armv7m_systick_initialize 3 48005120 zeroState).cycle = 48005120 / 1000 ∧
    ( armv7m_systick_initialize 3 48005120 zeroState).frac = 48005120 % 1000 :=
  ⟨by decide, by decide,
    (C10_initialize_state 3 48005120 zeroState (by decide) (by decide)).1,
    (C10_initialize_state 3 48005120 zeroState (by decide) (by decide)).2.2.2.1⟩

/-! ## Claims about `armv7m_systick_micros` -/

/-- The product of an offset below `f / 1000` and the scale of frequency `f`
stays below `1000 * 2^22`. -/
theorem offset_scale_bound (f k : Nat) (hlo : 1000 ≤ f) (hhi : f < U32)
    (hk : k + 1 ≤ f / 1000) : k * (4194304000000 / f) < 4194304000 := by
  simp only [U32] at hhi
  have h1 : f / 1000 * 1000 ≤ f := Nat.div_mul_le_self f 1000
  have h2 : 4194304000000 / f * f ≤ 4194304000000 := Nat.div_mul_le_self _ f
  have h3 : 1 ≤ 4194304000000 / f := by
    apply (Nat.le_div_iff_mul_le (by omega)).2
    omega
  have h4 : 4194304000000 / f * ((k + 1) * 1000) ≤ 4194304000000 / f * f :=
    Nat.mul_le_mul_left _ (by omega)
  have h5 : 4194304000000 / f * ((k + 1) * 1000)
      = 1000 * (k * (4194304000000 / f)) + 1000 * (4194304000000 / f) := by ring
  omega

/-- Without wrap-around the offset of `armv7m_systick_micros` is the plain
difference. -/
theorem micros_offset (s : State) (hc : s.cycle < U32) (hv : s.VAL + 1 ≤ s.cycle) :
    sub32 (sub32 s.cycle 1) s.VAL = s.cycle - 1 - s.VAL := by
  simp only [sub32, U32] at *; omega

/-- C4 (failing input): after initialisation at 1,000,500 Hz the second
handler run programs the long reload value `1000 = cycle` (snapshot 2000).
With the counter at 1000, within `0..LOAD`, `armv7m_systick_micros` returns
the snapshot plus 1023; one count later, at 999, it returns the snapshot plus
0, and the first value also exceeds the one returned at the start of the
following period. The same happens with the snapshot 3000 of the next
handler run, the period the hardware runs with the reload value 1000. -/
theorem C4_micros_decreases_in_long_period :
    (ticks 2 (initState 1000500)).LOAD = 1000 ∧
    (ticks 2 (initState 1000500)).cycle = 1000 ∧
    (ticks 2 (initState 1000500)).micros = 2000 ∧
    armv7m_systick_micros { ticks 2 (initState 1000500) with VAL := 1000 } = 3023 ∧
    armv7m_systick_micros { ticks 2 (initState 1000500) with VAL := 999 } = 2000 ∧
    armv7m_systick_micros { ticks 3 (initState 1000500) with VAL := 999 } = 3000 ∧
    armv7m_systick_micros { ticks 3 (initState 1000500) with VAL := 1000 } = 4023 ∧
    armv7m_systick_micros { ticks 4 (initState 1000500) with VAL := 999 } = 4000 := by
  decide

/-- Within a normal period (counter between 0 and `cycle - 1`) a later, that
is smaller, counter reading never gives a smaller result. -/
theorem micros_monotone_normal_period (s : State) (f c1 c2 : Nat)
    (hlo : 1000 ≤ f) (hhi : f < U32)
    (hc : s.cycle = f / 1000) (hs : s.scale = 4194304000000 / f)
    (h12 : c2 ≤ c1) (h1 : c1 + 1 ≤ s.cycle) (hm : s.micros + 1000 ≤ U64) :
    armv7m_systick_micros { s with VAL := c1 } ≤ armv7m_systick_micros { s with VAL := c2 } := by
  have hcU : s.cycle < U32 := by rw [hc]; simp only [U32] at *; omega
  have b1 := offset_scale_bound f (s.cycle - 1 - c1) hlo hhi (by rw [← hc]; omega)
  have b2 := offset_scale_bound f (s.cycle - 1 - c2) hlo hhi (by rw [← hc]; omega)
  have o1 := micros_offset { s with VAL := c1 } hcU h1
  have o2 := micros_offset { s with VAL := c2 } hcU (by show c2 + 1 ≤ s.cycle; omega)
  have hle : (s.cycle - 1 - c1) * (4194304000000 / f) ≤ (s.cycle - 1 - c2) * (4194304000000 / f) :=
    Nat.mul_le_mul_right _ (by omega)
  unfold armv7m_systick_micros micros_increment micros_product
  rw [o1, o2]
  simp only [hs, U32, U64] at *
  omega

/-- C5: for `1000 ≤ f < 2^32`, in a state whose `cycle` and `scale` are
those set by initialisation at `f` and whose counter reading is at most
`cycle - 1`, the product `((cycle - 1) - count) * scale` is below `2^32`, the
increment `product >> 22` equals the unwrapped `(cycle - 1 - count) * scale /
2^22` and is at most 999, and the value returned lies between the snapshot
and the snapshot plus 999 (the 64-bit sum not wrapping). -/
theorem C5_micros_increment_bound (s : State) (f : Nat) (hlo : 1000 ≤ f) (hhi : f < U32)
    (hc : s.cycle = (initState f).cycle) (hs : s.scale = (initState f).scale)
    (hv : s.VAL ≤ s.cycle - 1) :
    sub32 (sub32 s.cycle 1) s.VAL * s.scale < U32 ∧
    micros_increment s = (s.cycle - 1 - s.VAL) * s.scale / 2 ^ 22 ∧
    micros_increment s ≤ 999 ∧
    (s.micros + 1000 ≤ U64 →
      s.micros ≤ armv7m_systick_micros s ∧ armv7m_systick_micros s < s.micros + 1000) := by
  obtain ⟨ic, _, _, _, _, is, _, _⟩ := init_fields 0 f zeroState hlo hhi
  have hc' : s.cycle = f / 1000 := hc.trans ic
  have hs' : s.scale = 4194304000000 / f := hs.trans is
  have hc1 : 1 ≤ s.cycle := by rw [hc']; omega
  have hcU : s.cycle < U32 := by rw [hc']; simp only [U32] at *; omega
  have b := offset_scale_bound f (s.cycle - 1 - s.VAL) hlo hhi (by rw [← hc']; omega)
  have o := micros_offset s hcU (by omega)
  rw [← hs'] at b
  have hprod : sub32 (sub32 s.cycle 1) s.VAL * s.scale < U32 := by
    rw [o]; simp only [U32]; omega
  have hinc : micros_increment s = (s.cycle - 1 - s.VAL) * s.scale / 2 ^ 22 := by
    unfold micros_increment micros_product
    rw [Nat.mod_eq_of_lt hprod, o]
    norm_num
  have h999 : micros_increment s ≤ 999 := by
    rw [hinc]
    have : (2:Nat) ^ 22 = 4194304 := by norm_num
    rw [this]; omega
  refine ⟨hprod, hinc, h999, ?_⟩
  intro hm
  unfold armv7m_systick_micros
  simp only [U64] at *
  omega

/-- Witness of C5: 80 MHz, the counter at 0 (the last count of a period)
with snapshot 5000. -/
theorem C5_micros_increment_bound_witness :
    1000 ≤ 80000000 ∧ 80000000 < U32 ∧
    micros_increment { initState 80000000 with VAL := 0, micros := 5000 } ≤ 999 ∧
    sub32 (sub32 80000 1) 0 * 52428 < U32 :=
  ⟨by decide, by decide,
    (C5_micros_increment_bound { initState 80000000 with VAL := 0, micros := 5000 } 80000000
      (by decide) (by decide) (by decide) (by decide) (by decide)).2.2.1,
    (C5_micros_increment_bound { initState 80000000 with VAL := 0, micros := 5000 } 80000000
      (by decide) (by decide) (by decide) (by decide) (by decide)).1⟩

/-! ## Claims about `armv7m_systick_disable` and `armv7m_systick_enable` -/

/-- The rescaled offset is below the new cycle, wrapped product or not. -/
theorem rescaled_lt (o oc c : Nat) (ho : o < oc) (hc : 1 ≤ c) : (o * c % U32) / oc < c := by
  apply (Nat.div_lt_iff_lt_mul (by omega)).2
  have h1 : o * c % U32 ≤ o * c := Nat.mod_le _ _
  have h2 : o * c < oc * c := Nat.mul_lt_mul_of_pos_right ho (by omega)
  have h3 : oc * c = c * oc := Nat.mul_comm _ _
  omega

/-- The sub-millisecond term is below the new cycle, wrapped product or not. -/
theorem submillis_lt (x c : Nat) (hx : x < 32768) (hc : 1 ≤ c) : (x * c % U32) / 32768 < c := by
  apply (Nat.div_lt_iff_lt_mul (by omega)).2
  have h1 : x * c % U32 ≤ x * c := Nat.mod_le _ _
  have h2 : x * c < 32768 * c := Nat.mul_lt_mul_of_pos_right hx (by omega)
  omega

/-- With a count below twice the cycle, the loop of `armv7m_systick_enable`
ends within two evaluations of its condition, after at most one iteration. -/
theorem enableLoop_two (fuel c cnt m u : Nat) (hfuel : 2 ≤ fuel) (hc : 1 ≤ c) (hcU : c < U32)
    (hcnt : cnt < 2 * c) (hcntU : cnt < U32) :
    enableLoop fuel c cnt m u =
      if cnt ≥ c then some (cnt - c, (m + 1) % U64, (u + 1000) % U64) else some (cnt, m, u) := by
  obtain ⟨k, rfl⟩ : ∃ k, fuel = k + 2 := ⟨fuel - 2, by omega⟩
  by_cases h : cnt ≥ c
  · have hs : sub32 cnt c = cnt - c := by
      simp only [sub32, U32] at *; omega
    have hlt : ¬ (cnt - c ≥ c) := by omega
    simp only [enableLoop, h, if_true, hs, hlt, if_false]
  · simp only [enableLoop, h, if_false]

/-- The count with which the loop of `armv7m_systick_enable` starts is below
twice the new cycle when the old offset is below the old cycle. -/
theorem enable_count_lt (f rtc : Nat) (s : State) (ho : enable_o_count s < s.cycle)
    (hc : 1 ≤ enable_cycle f) :
    enable_count f rtc s < 2 * enable_cycle f ∧ enable_count f rtc s < U32 := by
  have h1 : enable_rescaled f s < enable_cycle f := rescaled_lt _ _ _ ho hc
  have h2 : enable_submillis f rtc s < enable_cycle f :=
    submillis_lt _ _ (Nat.mod_lt _ (by decide)) hc
  have h3 : enable_cycle f < U32 := Nat.mod_lt _ (by decide)
  unfold enable_count
  simp only [U32] at *
  omega

/-- The result of `armv7m_systick_enable` when the old offset is below the
old cycle and the new cycle is at least one: the loop runs at most once. -/
theorem enable_eq (fuel f rtc : Nat) (s : State) (hfuel : 2 ≤ fuel)
    (ho : enable_o_count s < s.cycle) (hc : 1 ≤ enable_cycle f) :
    ∃ s' carry, armv7m_systick_enable fuel f rtc s = some s' ∧
      carry = (if enable_count f rtc s ≥ enable_cycle f then 1 else 0) ∧
      s'.cycle = enable_cycle f ∧
      s'.millis = (s.millis + (enable_delta rtc s * 1000 % U64) / 32768 + carry) % U64 ∧
      s'.micros = (s'.millis * 1000) % U64 ∧
      s'.VAL = enable_cycle f - 1 - (enable_count f rtc s - carry * enable_cycle f) ∧
      s'.LOAD = enable_cycle f - 1 ∧
      enable_count f rtc s - carry * enable_cycle f < enable_cycle f ∧
      s'.frac = s.frac ∧ s'.accum = s.accum ∧ s'.scale = s.scale := by
  obtain ⟨hlt, hU⟩ := enable_count_lt f rtc s ho hc
  have hcU : enable_cycle f < U32 := Nat.mod_lt _ (by decide)
  have hs0 : s.cycle ≠ 0 := by omega
  have hloop := enableLoop_two fuel (enable_cycle f) (enable_count f rtc s) s.millis s.micros
    hfuel hc hcU hlt hU
  by_cases h : enable_count f rtc s ≥ enable_cycle f
  · simp only [h, if_true] at hloop
    have hres : armv7m_systick_enable fuel f rtc s = some { s with
        cycle := enable_cycle f
        VAL := sub32 (sub32 (enable_cycle f) 1) (enable_count f rtc s - enable_cycle f)
        LOAD := sub32 (enable_cycle f) 1
        CTRL := SysTick_CTRL_CLKSOURCE_Msk + SysTick_CTRL_TICKINT_Msk + SysTick_CTRL_ENABLE_Msk
        millis := ((s.millis + 1) % U64 + ((enable_delta rtc s * 1000) % U64) / 32768) % U64
        micros := (((s.millis + 1) % U64 + ((enable_delta rtc s * 1000) % U64) / 32768) % U64
          * 1000) % U64 } := by
      simp only [armv7m_systick_enable, hs0, if_false, hloop]
    refine ⟨_, 1, hres, by simp only [h, if_true], rfl, ?_, rfl, ?_, ?_, ?_, rfl, rfl, rfl⟩
    · simp only [U64]; omega
    · simp only [sub32, U32, Nat.one_mul] at *; omega
    · simp only [sub32, U32] at *; omega
    · omega
  · simp only [h, if_false] at hloop
    have hres : armv7m_systick_enable fuel f rtc s = some { s with
        cycle := enable_cycle f
        VAL := sub32 (sub32 (enable_cycle f) 1) (enable_count f rtc s)
        LOAD := sub32 (enable_cycle f) 1
        CTRL := SysTick_CTRL_CLKSOURCE_Msk + SysTick_CTRL_TICKINT_Msk + SysTick_CTRL_ENABLE_Msk
        millis := (s.millis + ((enable_delta rtc s * 1000) % U64) / 32768) % U64
        micros := ((s.millis + ((enable_delta rtc s * 1000) % U64) / 32768) % U64
          * 1000) % U64 } := by
      simp only [armv7m_systick_enable, hs0, if_false, hloop]
    refine ⟨_, 0, hres, by simp only [h, if_false], rfl, ?_, rfl, ?_, ?_, ?_, rfl, rfl, rfl⟩
    · simp only [U64]; omega
    · simp only [sub32, U32, Nat.zero_mul] at *; omega
    · simp only [sub32, U32] at *; omega
    · omega

/-- The backup delta seen by `armv7m_systick_enable` after
`armv7m_systick_disable`. -/
theorem delta_after_disable (rtc0 rtc1 : Nat) (s : State) :
    enable_delta rtc1 (armv7m_systick_disable rtc0 s) = sub64 rtc1 rtc0 := by
  simp only [enable_delta, armv7m_systick_disable, sub64, Nat.mod_mod]

/-- C6: `armv7m_systick_disable` followed by `armv7m_systick_enable` that
finds the cycle unchanged, from an offset `(cycle - 1) - VAL` below the cycle
and with a backup delta `d` such that `d * 1000 < 2^64`: enable returns, `millis`
becomes the old `millis` plus `d * 1000 / 32768` plus a carry of 0 or 1
(modulo `2^64`), `micros` becomes 1000 times the new `millis` (modulo `2^64`),
and for `d = 8192` the increase is 250 or 251. -/
theorem C6_disable_enable_millis (s : State) (f rtc0 rtc1 fuel : Nat)
    (ho : enable_o_count s < s.cycle) (hfreq : enable_cycle f = s.cycle)
    (hd : sub64 rtc1 rtc0 * 1000 < U64) (hfuel : 2 ≤ fuel) :
    ∃ s' carry,
      armv7m_systick_enable fuel f rtc1 (armv7m_systick_disable rtc0 s) = some s' ∧
      carry ≤ 1 ∧
      s'.millis = (s.millis + sub64 rtc1 rtc0 * 1000 / 32768 + carry) % U64 ∧
      s'.micros = (s'.millis * 1000) % U64 ∧
      (sub64 rtc1 rtc0 = 8192 →
        s'.millis = (s.millis + 250) % U64 ∨ s'.millis = (s.millis + 251) % U64) := by
  have hc : 1 ≤ enable_cycle f := by rw [hfreq]; omega
  obtain ⟨s', carry, hres, hcar, _, hm, hu, _⟩ :=
    enable_eq fuel f rtc1 (armv7m_systick_disable rtc0 s) hfuel ho hc
  rw [delta_after_disable, Nat.mod_eq_of_lt hd] at hm
  have hm' : s'.millis = (s.millis + sub64 rtc1 rtc0 * 1000 / 32768 + carry) % U64 := hm
  have hcar' : carry ≤ 1 := by rw [hcar]; split <;> omega
  refine ⟨s', carry, hres, hcar', hm', hu, ?_⟩
  intro h8
  rw [h8] at hm'
  rw [hm']
  rcases Nat.le_one_iff_eq_zero_or_eq_one.1 hcar' with h | h
  · left; rw [h]
  · right; rw [h]

/-- Witness of C6: 80 MHz, disabled 60000 counts into a period with the
backup counter at 100, enabled with the backup counter at 8292. -/
theorem C6_disable_enable_millis_witness :
    enable_o_count midPeriodState < midPeriodState.cycle ∧
    enable_cycle 80000000 = midPeriodState.cycle ∧
    sub64 8292 100 * 1000 < U64 ∧
    ∃ s' carry,
      armv7m_systick_enable 2 80000000 8292 (armv7m_systick_disable 100 midPeriodState)
        = some s' ∧
      carry ≤ 1 ∧
      s'.millis = (midPeriodState.millis + sub64 8292 100 * 1000 / 32768 + carry) % U64 ∧
      s'.micros = (s'.millis * 1000) % U64 ∧
      (sub64 8292 100 = 8192 →
        s'.millis = (midPeriodState.millis + 250) % U64 ∨
        s'.millis = (midPeriodState.millis + 251) % U64) :=
  ⟨by decide, by decide, by decide,
    C6_disable_enable_millis midPeriodState 80000000 100 8292 2
      (by decide) (by decide) (by decide) (by decide)⟩

/-- When neither the product `o_count * cycle` nor the 64-bit counters wrap
and the new cycle is below `2^17`, `armv7m_systick_enable` carries all of the
elapsed time into `millis` and the counter. -/
theorem enable_conserves_counts (fuel f rtc : Nat) (s : State) (hfuel : 2 ≤ fuel)
    (ho : enable_o_count s < s.cycle) (hc : 1 ≤ enable_cycle f)
    (hc17 : enable_cycle f < 131072)
    (hnw : enable_o_count s * enable_cycle f < U32)
    (hd : enable_delta rtc s * 1000 < U64)
    (hm : s.millis + enable_delta rtc s * 1000 / 32768 + 1 < U64) :
    ∃ s', armv7m_systick_enable fuel f rtc s = some s' ∧
      s'.millis * enable_cycle f + (enable_cycle f - 1 - s'.VAL)
        = s.millis * enable_cycle f + enable_o_count s * enable_cycle f / s.cycle
          + (enable_delta rtc s * 1000 / 32768) * enable_cycle f
          + (enable_delta rtc s * 1000 % 32768) * enable_cycle f / 32768 := by
  obtain ⟨s', carry, hres, hcar, _, hmil, _, hval, _, hlt, _⟩ :=
    enable_eq fuel f rtc s hfuel ho hc
  refine ⟨s', hres, ?_⟩
  have hr : enable_rescaled f s = enable_o_count s * enable_cycle f / s.cycle := by
    unfold enable_rescaled; rw [Nat.mod_eq_of_lt hnw]
  have hx : ((enable_delta rtc s * 1000 % U64) % U32) % 32768
      = enable_delta rtc s * 1000 % 32768 := by
    simp only [U64, U32]; omega
  have hprod : (enable_delta rtc s * 1000 % 32768) * enable_cycle f < U32 := by
    have := Nat.mul_lt_mul'' (Nat.mod_lt (enable_delta rtc s * 1000) (by decide : 0 < 32768)) hc17
    simp only [U32]; omega
  have ht : enable_submillis f rtc s
      = (enable_delta rtc s * 1000 % 32768) * enable_cycle f / 32768 := by
    unfold enable_submillis; rw [hx, Nat.mod_eq_of_lt hprod]
  have hr_lt : enable_rescaled f s < enable_cycle f := rescaled_lt _ _ _ ho hc
  have ht_lt : enable_submillis f rtc s < enable_cycle f :=
    submillis_lt _ _ (Nat.mod_lt _ (by decide)) hc
  have hcount : enable_count f rtc s = enable_rescaled f s + enable_submillis f rtc s := by
    unfold enable_count
    apply Nat.mod_eq_of_lt
    simp only [U32]; omega
  rw [Nat.mod_eq_of_lt hd] at hmil
  rw [← hr, ← ht, hval, hmil]
  by_cases h : enable_count f rtc s ≥ enable_cycle f
  · simp only [h, if_true] at hcar
    subst hcar
    rw [Nat.mod_eq_of_lt (by omega)]
    have e : (s.millis + enable_delta rtc s * 1000 / 32768 + 1) * enable_cycle f
        = s.millis * enable_cycle f + enable_delta rtc s * 1000 / 32768 * enable_cycle f
          + enable_cycle f := by ring
    rw [e, Nat.one_mul] at *
    omega
  · simp only [h, if_false] at hcar
    subst hcar
    rw [Nat.mod_eq_of_lt (by omega)]
    have e : (s.millis + enable_delta rtc s * 1000 / 32768 + 0) * enable_cycle f
        = s.millis * enable_cycle f + enable_delta rtc s * 1000 / 32768 * enable_cycle f := by
      ring
    rw [e, Nat.zero_mul] at *
    omega

/-- C7 (failing input): at 80 MHz, unchanged, with the timer disabled 60000
counts into a period and no time passing on the backup counter, the exact
account asks for `millis * c + ((c - 1) - VAL) = 60000` after enable; the
32-bit product `60000 * 80000` wraps, the rescaled offset becomes 6312, and
enable writes `VAL = 73687`, so the account after enable is 6312. -/
theorem C7_enable_loses_counts :
    enable_o_count (armv7m_systick_disable 0 midPeriodState) = 60000 ∧
    (armv7m_systick_disable 0 midPeriodState).cycle = 80000 ∧
    enable_delta 0 (armv7m_systick_disable 0 midPeriodState) = 0 ∧
    (armv7m_systick_disable 0 midPeriodState).millis * 80000 + 60000 * 80000 / 80000
      + (0 * 1000 / 32768) * 80000 + (0 * 1000 % 32768) * 80000 / 32768 = 60000 ∧
    (armv7m_systick_enable 2 80000000 0 (armv7m_systick_disable 0 midPeriodState)).map
      (fun s' => (s'.millis, s'.cycle, s'.VAL, s'.millis * s'.cycle + ((s'.cycle - 1) - s'.VAL)))
      = some (0, 80000, 73687, 6312) := by
  decide

/-! ## Claims about `armv7m_systick_delay` and `armv7m_systick_notify` -/

/-- The loop of `armv7m_systick_delay` exits at the first observation whose
64-bit difference to the local is not below the delay. -/
theorem delayLoop_exit (m0 d : Nat) : ∀ (obs : List Nat) (i k : Nat),
    delayLoop m0 d obs i = some k →
      i ≤ k ∧ (∃ m, obs[k - i]? = some m ∧ d ≤ sub64 m m0) ∧
      ∀ j, j < k - i → ∃ mj, obs[j]? = some mj ∧ sub64 mj m0 < d := by
  intro obs
  induction obs with
  | nil => intro i k h; simp [delayLoop] at h
  | cons m rest ih =>
    intro i k h
    by_cases hlt : sub64 m m0 < d
    · simp only [delayLoop, hlt, if_true] at h
      obtain ⟨hik, ⟨mk, hmk, hd⟩, hbefore⟩ := ih (i + 1) k h
      have e : k - i = (k - (i + 1)) + 1 := by omega
      refine ⟨by omega, ⟨mk, ?_, hd⟩, ?_⟩
      · rw [e, List.getElem?_cons_succ]; exact hmk
      · intro j hj
        cases j with
        | zero => exact ⟨m, List.getElem?_cons_zero, hlt⟩
        | succ j =>
          rw [List.getElem?_cons_succ]
          exact hbefore j (by omega)
    · simp only [delayLoop, hlt, if_false, Option.some.injEq] at h
      subst h
      refine ⟨Nat.le_refl _, ⟨m, ?_, by omega⟩, ?_⟩
      · rw [Nat.sub_self]; exact List.getElem?_cons_zero
      · intro j hj; omega

/-- The loop of `armv7m_systick_delay` exits once an observation reaches the
delay. -/
theorem delayLoop_returns (m0 d : Nat) : ∀ (obs : List Nat) (i : Nat),
    (∃ m ∈ obs, d ≤ sub64 m m0) → ∃ k, delayLoop m0 d obs i = some k := by
  intro obs
  induction obs with
  | nil => intro i h; obtain ⟨m, hm, _⟩ := h; simp at hm
  | cons m rest ih =>
    intro i h
    by_cases hlt : sub64 m m0 < d
    · simp only [delayLoop, hlt, if_true]
      apply ih
      obtain ⟨x, hx, hd⟩ := h
      rcases List.mem_cons.1 hx with rfl | hx
      · omega
      · exact ⟨x, hx, hd⟩
    · exact ⟨i, by simp only [delayLoop, hlt, if_false]⟩

/-- Called while `millis` still fits 32 bits, `armv7m_systick_delay` leaves
its loop at the first observation that is at least `delay` past the value at
the call, and it does leave it when such an observation comes. -/
theorem delay_waits_below_wrap (s : State) (d : Nat) (obs : List Nat)
    (hs : s.millis < U32) (hobs : ∀ m ∈ obs, s.millis ≤ m ∧ m < U64) :
    (∀ k, armv7m_systick_delay s d obs = some k →
      (∃ m, obs[k]? = some m ∧ d ≤ m - s.millis) ∧
      ∀ j, j < k → ∃ mj, obs[j]? = some mj ∧ mj - s.millis < d) ∧
    ((∃ m ∈ obs, d ≤ m - s.millis) → ∃ k, armv7m_systick_delay s d obs = some k) := by
  have hsub : ∀ m ∈ obs, sub64 m (s.millis % U32) = m - s.millis := by
    intro m hm
    obtain ⟨h1, h2⟩ := hobs m hm
    simp only [sub64, U32, U64] at *; omega
  refine ⟨?_, ?_⟩
  · intro k h
    obtain ⟨_, ⟨m, hm, hd⟩, hbefore⟩ := delayLoop_exit _ _ obs 0 k h
    rw [Nat.sub_zero] at hm hbefore
    refine ⟨⟨m, hm, ?_⟩, ?_⟩
    · rw [← hsub m (List.getElem?_mem hm)]; exact hd
    · intro j hj
      obtain ⟨mj, hmj, hlt⟩ := hbefore j hj
      exact ⟨mj, hmj, by rw [← hsub mj (List.getElem?_mem hmj)]; exact hlt⟩
  · intro h
    obtain ⟨m, hm, hd⟩ := h
    exact delayLoop_returns _ _ obs 0 ⟨m, hm, by rw [hsub m hm]; exact hd⟩

/-- C8 (failing input): with `millis = 2^32` at the call, `delay (50)` leaves
its loop after the first yield although the counter still reads `2^32`, no
millisecond having passed: the 32-bit local holds 0 and the 64-bit difference
is `2^32`. Called at `millis = 1000` it leaves the loop at 1050. -/
theorem C8_delay_returns_without_waiting :
    armv7m_systick_delay { zeroState with millis := 4294967296 } 50
      [4294967296, 4294967296, 4294967297] = some 0 ∧
    4294967296 - ({ zeroState with millis := 4294967296 } : State).millis < 50 ∧
    armv7m_systick_delay { zeroState with millis := 1000 } 50
      [1000, 1001, 1049, 1050, 1051] = some 3 := by
  decide

/-- The calls handed over by the notification block. -/
theorem handler_notify_pendsv (s : State) :
    (handler_notify s).pendsv =
      if s.callback ≠ 0 then s.pendsv ++ [⟨s.callback, s.context, s.millis % U32⟩]
      else s.pendsv := by
  unfold handler_notify
  split <;> rfl

/-- The calls handed over by one handler run. -/
theorem handler_pendsv (s : State) :
    (SysTick_Handler s).pendsv =
      if s.callback ≠ 0 then
        s.pendsv ++ [⟨s.callback, s.context, ((s.millis + 1) % U64) % U32⟩]
      else s.pendsv := by
  obtain ⟨_, hm, _, _, hcb, hctx, hp⟩ := handler_frac_fields
    { s with micros := (s.micros + 1000) % U64, millis := (s.millis + 1) % U64 }
  unfold SysTick_Handler
  rw [handler_notify_pendsv, hcb, hctx, hp, hm]

/-- With no callback registered, no number of handler runs hands over a call. -/
theorem ticks_no_callback (n : Nat) : ∀ s : State, s.callback = 0 →
    (ticks n s).pendsv = s.pendsv := by
  induction n with
  | zero => intro s _; rfl
  | succ n ih =>
    intro s h
    have h' : (SysTick_Handler s).callback = 0 := by rw [handler_callback]; exact h
    simp only [ticks, ih (SysTick_Handler s) h', handler_pendsv, h, ne_eq, not_true_eq_false,
      if_false]

/-- C9 (counterexample): in a state with `millis = 2^32 - 1`, `notify (7, 9)`
followed by one handler run hands over the call `(7, 9, 0)`, while `millis`
after the increment is `2^32`: the argument is not the value of `millis`. -/
theorem C9_argument_is_truncated :
    (SysTick_Handler (armv7m_systick_notify 7 9 lateState)).millis = 4294967296 ∧
    (SysTick_Handler (armv7m_systick_notify 7 9 lateState)).pendsv = [⟨7, 9, 0⟩] ∧
    ¬ ((SysTick_Handler (armv7m_systick_notify 7 9 lateState)).pendsv
        = lateState.pendsv ++
          [⟨7, 9, (SysTick_Handler (armv7m_systick_notify 7 9 lateState)).millis⟩]) := by
  decide

/-- C9 (amended): for every state, callback `cb ≠ NULL` and context `ctx`,
`notify (cb, ctx)` followed by one handler run hands exactly one call to the
deferred-call queue, with routine `cb`, context `ctx` and the low 32 bits of
`millis` after the increment; after `notify (NULL, _)` no number of handler
runs hands over any call. -/
theorem C9_notify_then_tick (s : State) (cb ctx : Nat) (hcb : cb ≠ 0) :
    (SysTick_Handler (armv7m_systick_notify cb ctx s)).pendsv
      = s.pendsv ++
        [⟨cb, ctx, (SysTick_Handler (armv7m_systick_notify cb ctx s)).millis % U32⟩] ∧
    (SysTick_Handler (armv7m_systick_notify cb ctx s)).millis = (s.millis + 1) % U64 ∧
    ∀ N ctx0, (ticks N (armv7m_systick_notify 0 ctx0 s)).pendsv = s.pendsv := by
  refine ⟨?_, ?_, ?_⟩
  · rw [handler_pendsv, handler_millis]
    simp [armv7m_systick_notify, notify_callback, notify_context, notify_clear, hcb]
  · rw [handler_millis]; rfl
  · intro N ctx0
    exact ticks_no_callback N (armv7m_systick_notify 0 ctx0 s) rfl

/-- Witness of C9 (amended): callback 7 with context 9 registered 49.7 days
after initialisation. -/
theorem C9_notify_then_tick_witness :
    (7 : Nat) ≠ 0 ∧
    (SysTick_Handler (armv7m_systick_notify 7 9 lateState)).pendsv
      = lateState.pendsv ++
        [⟨7, 9, (SysTick_Handler (armv7m_systick_notify 7 9 lateState)).millis % U32⟩] :=
  ⟨by decide, (C9_notify_then_tick lateState 7 9 (by decide)).1⟩

/-! ## Sequences of events -/

/-- What `armv7m_systick_enable` writes and what it leaves alone, whenever it
returns. -/
theorem enable_fields (fuel f rtc : Nat) (s t : State)
    (h : armv7m_systick_enable fuel f rtc s = some t) :
    t.cycle = enable_cycle f ∧ t.frac = s.frac ∧ t.accum = s.accum ∧ t.scale = s.scale ∧
    t.micros = (t.millis * 1000) % U64 ∧ t.callback = s.callback ∧
    t.context = s.context ∧ t.pendsv = s.pendsv ∧ t.count = s.count := by
  unfold armv7m_systick_enable at h
  split at h
  · exact absurd h (by simp)
  · dsimp only at h
    split at h
    · exact absurd h (by simp)
    · simp only [Option.some.injEq] at h
      subst h
      exact ⟨rfl, rfl, rfl, rfl, rfl, rfl, rfl, rfl, rfl⟩

/-- A property kept by every event holds after every sequence of events. -/
theorem run_invariant (P : State → Prop)
    (hstep : ∀ op s t, P s → step op s = some t → P t) :
    ∀ (ops : List Op) (s t : State), P s → run ops s = some t → P t := by
  intro ops
  induction ops with
  | nil =>
    intro s t hs h
    simp only [run, Option.some.injEq] at h
    exact h ▸ hs
  | cons op ops ih =>
    intro s t hs h
    simp only [run] at h
    split at h
    · exact absurd h (by simp)
    · rename_i u hu
      exact ih u t (hstep op s u hs hu) h

/-- Remainder and accumulator stay below 1000 through every event. -/
theorem step_frac_accum (op : Op) (s t : State) (hs : s.frac < 1000 ∧ s.accum < 1000)
    (h : step op s = some t) : t.frac < 1000 ∧ t.accum < 1000 := by
  obtain ⟨hf, ha⟩ := hs
  cases op with
  | tick =>
    simp only [step, Option.some.injEq] at h
    subst h
    rw [handler_frac_eq, handler_accum s hf ha]
    exact ⟨hf, Nat.mod_lt _ (by decide)⟩
  | notify cb ctx =>
    simp only [step, Option.some.injEq] at h
    subst h
    exact ⟨hf, ha⟩
  | counter v =>
    simp only [step, Option.some.injEq] at h
    subst h
    exact ⟨hf, ha⟩
  | disable rtc =>
    simp only [step, Option.some.injEq] at h
    subst h
    exact ⟨hf, ha⟩
  | enable fuel f rtc =>
    obtain ⟨_, e1, e2, _⟩ := enable_fields fuel f rtc s t h
    rw [e1, e2]
    exact ⟨hf, ha⟩

/-- The stored `micros` is `millis * 1000` modulo `2^64` through every event. -/
theorem step_micros_millis (op : Op) (s t : State) (hs : s.micros = (s.millis * 1000) % U64)
    (h : step op s = some t) : t.micros = (t.millis * 1000) % U64 := by
  cases op with
  | tick =>
    simp only [step, Option.some.injEq] at h
    subst h
    rw [handler_micros, handler_millis, hs]
    simp only [U64]; omega
  | notify cb ctx =>
    simp only [step, Option.some.injEq] at h
    subst h
    exact hs
  | counter v =>
    simp only [step, Option.some.injEq] at h
    subst h
    exact hs
  | disable rtc =>
    simp only [step, Option.some.injEq] at h
    subst h
    exact hs
  | enable fuel f rtc =>
    exact (enable_fields fuel f rtc s t h).2.2.2.2.1

/-! ## Claims about the state after `armv7m_systick_enable` and about reachable states -/

/-- C11 (failing input): after initialisation at 80,000,000 Hz (`frac = 0`),
with the timer disabled 60000 counts into a period and enabled again with
`SystemCoreClock = 1000005`, the state has `cycle = 1000` and still
`frac = 0`, where `1000005 - 1000 * 1000 = 5` is the remainder that
initialisation at that frequency stores. -/
theorem C11_enable_keeps_old_frac :
    (run [.counter 19999, .disable 100, .enable 2 1000005 100] (initState 80000000)).map
      (fun t => (t.cycle, t.frac)) = some (1000, 0) ∧
    1000005 / 1000 = 1000 ∧ 1000005 - 1000 * 1000 = 5 ∧
    (initState 1000005).cycle = 1000 ∧ (initState 1000005).frac = 5 := by
  decide

/-- C12 (failing input): after initialisation at 80,000,000 Hz
(`scale = 52428`), with the timer disabled and enabled again with
`SystemCoreClock = 40000000`, the state has `cycle = 40000` and still
`scale = 52428`, where `2^22 * 1000000 / 40000000 = 104857`; with the counter
at 0, the last count of a period, `armv7m_systick_micros` returns the snapshot
plus 499, where the scale of the new frequency gives 999. -/
theorem C12_enable_keeps_old_scale :
    (run [.counter 19999, .disable 100, .enable 2 40000000 100, .counter 0]
      (initState 80000000)).map
      (fun t => (t.cycle, t.scale, t.micros, armv7m_systick_micros t))
      = some (40000, 52428, 0, 499) ∧
    2 ^ 22 * 1000000 / 40000000 = 104857 ∧
    (initState 40000000).scale = 104857 ∧
    armv7m_systick_micros { initState 40000000 with VAL := 0 } = 999 := by
  decide

/-- C13: in every state reached from initialisation at a frequency `f` with
`1000 ≤ f < 2^32` by handler runs, notify calls, counter movements, disable
and enable calls, the accumulator and the remainder are below 1000, so the
sum `accum + frac` of the handler fits 32 bits and is not reduced by the
32-bit addition. -/
theorem C13_accumulator_below_thousand (p f : Nat) (s0 s : State) (ops : List Op)
    (hlo : 1000 ≤ f) (hhi : f < U32)
    (hrun : run ops ( armv7m_systick_initialize p f s0) = some s) :
    s.accum < 1000 ∧ s.frac < 1000 ∧ s.accum + s.frac < U32 ∧
    (s.accum + s.frac) % U32 = s.accum + s.frac := by
  obtain ⟨hf, ha, _⟩ := initialized_FracInv p f s0 hlo hhi
  obtain ⟨h1, h2⟩ := run_invariant (fun t => t.frac < 1000 ∧ t.accum < 1000)
    step_frac_accum ops _ s ⟨hf, ha⟩ hrun
  have h3 : s.accum + s.frac < U32 := by simp only [U32]; omega
  exact ⟨h2, h1, h3, Nat.mod_eq_of_lt h3⟩

/-- Witness of C13: the events of `sampleEvents` after initialisation at
80,000,999 Hz. -/
theorem C13_accumulator_below_thousand_witness :
    1000 ≤ 80000999 ∧ 80000999 < U32 ∧
    run sampleEvents ( armv7m_systick_initialize 0 80000999 zeroState) = some sampleFinal ∧
    sampleFinal.accum < 1000 ∧ sampleFinal.frac < 1000 :=
  ⟨by decide, by decide, by decide,
    (C13_accumulator_below_thousand 0 80000999 zeroState sampleFinal sampleEvents
      (by decide) (by decide) (by decide)).1,
    (C13_accumulator_below_thousand 0 80000999 zeroState sampleFinal sampleEvents
      (by decide) (by decide) (by decide)).2.1⟩

/-- C14: in every state reached from initialisation by handler runs, notify
calls, counter movements, disable and enable calls, the stored `micros` is
`millis * 1000` modulo `2^64`; while `millis * 1000` fits 64 bits this gives
`millis * 1000 ≤ micros < (millis + 1) * 1000`. -/
theorem C14_micros_is_thousand_millis (p f : Nat) (s0 s : State) (ops : List Op)
    (hrun : run ops ( armv7m_systick_initialize p f s0) = some s) :
    s.micros = (s.millis * 1000) % U64 ∧
    (s.millis * 1000 < U64 →
      s.millis * 1000 ≤ s.micros ∧ s.micros < (s.millis + 1) * 1000) := by
  have h0 : ( armv7m_systick_initialize p f s0).micros
      = (( armv7m_systick_initialize p f s0).millis * 1000) % U64 := by
    show 0 = (0 * 1000) % U64
    norm_num
  have h := run_invariant (fun t => t.micros = (t.millis * 1000) % U64)
    step_micros_millis ops _ s h0 hrun
  refine ⟨h, ?_⟩
  intro hlt
  rw [h, Nat.mod_eq_of_lt hlt]
  omega

/-- Witness of C14: the events of `sampleEvents` after initialisation at
80,000,999 Hz. -/
theorem C14_micros_is_thousand_millis_witness :
    run sampleEvents ( armv7m_systick_initialize 0 80000999 zeroState) = some sampleFinal ∧
    sampleFinal.micros = (sampleFinal.millis * 1000) % U64 ∧
    sampleFinal.millis = 253 :=
  ⟨by decide,
    (C14_micros_is_thousand_millis 0 80000999 zeroState sampleFinal sampleEvents
      (by decide)).1,
    by decide⟩

/-! ## Claims about the store order of `armv7m_systick_notify` -/

/-- The registered pair is the same after any number of handler runs. -/
theorem ticks_callback_context (n : Nat) : ∀ s : State,
    (ticks n s).callback = s.callback ∧ (ticks n s).context = s.context := by
  induction n with
  | zero => intro s; exact ⟨rfl, rfl⟩
  | succ n ih =>
    intro s
    obtain ⟨e1, e2⟩ := ih (SysTick_Handler s)
    simp only [ticks, e1, e2, handler_callback, handler_context]
    exact ⟨trivial, trivial⟩

/-- Every call handed over by handler runs carries the registered pair. -/
theorem ticks_pendsv_mem (n : Nat) : ∀ (s : State) (c : PendsvCall),
    c ∈ (ticks n s).pendsv →
      c ∈ s.pendsv ∨ (c.routine = s.callback ∧ c.context = s.context) := by
  induction n with
  | zero => intro s c h; exact Or.inl h
  | succ n ih =>
    intro s c h
    rcases ih (SysTick_Handler s) c h with h1 | h1
    · rw [handler_pendsv] at h1
      split at h1
      · rcases List.mem_append.1 h1 with h2 | h2
        · exact Or.inl h2
        · rw [List.mem_singleton] at h2
          subst h2
          exact Or.inr ⟨rfl, rfl⟩
      · exact Or.inl h1
    · rw [handler_callback, handler_context] at h1
      exact Or.inr h1

/-- If the three assignments of `armv7m_systick_notify` reached memory one by
one in program order, as they would for `volatile` fields, no handler run
between them could hand over a call other than an earlier one or one with
routine `cb` and context `ctx`: of the three states in that order the first
two have no callback and the third has the pair `(cb, ctx)`. -/
theorem notify_program_order (s : State) (cb ctx n1 n2 n3 : Nat) :
    ((notify_clear s).callback = 0 ∨
      ((notify_clear s).callback = cb ∧ (notify_clear s).context = ctx)) ∧
    ((notify_context ctx (notify_clear s)).callback = 0 ∨
      ((notify_context ctx (notify_clear s)).callback = cb ∧
        (notify_context ctx (notify_clear s)).context = ctx)) ∧
    ((armv7m_systick_notify cb ctx s).callback = cb ∧
      (armv7m_systick_notify cb ctx s).context = ctx) ∧
    (SysTick_Handler (notify_clear s)).pendsv = s.pendsv ∧
    (SysTick_Handler (notify_context ctx (notify_clear s))).pendsv = s.pendsv ∧
    (ticks n2 (notify_context ctx (ticks n1 (notify_clear s)))).pendsv = s.pendsv ∧
    (∀ c ∈ (ticks n3 (notify_callback cb
        (ticks n2 (notify_context ctx (ticks n1 (notify_clear s)))))).pendsv,
      c ∈ s.pendsv ∨ (c.routine = cb ∧ c.context = ctx)) ∧
    armv7m_systick_notify cb ctx s = { s with callback := cb, context := ctx } := by
  have k1 : (ticks n1 (notify_clear s)).pendsv = s.pendsv :=
    ticks_no_callback n1 (notify_clear s) rfl
  have c1 : (ticks n1 (notify_clear s)).callback = 0 :=
    (ticks_callback_context n1 (notify_clear s)).1
  have k2 : (ticks n2 (notify_context ctx (ticks n1 (notify_clear s)))).pendsv = s.pendsv := by
    rw [ticks_no_callback n2 _ (show (notify_context ctx _).callback = 0 from c1)]
    exact k1
  have x2 : (ticks n2 (notify_context ctx (ticks n1 (notify_clear s)))).context = ctx :=
    (ticks_callback_context n2 _).2
  refine ⟨Or.inl rfl, Or.inl rfl, ⟨rfl, rfl⟩, ?_, ?_, k2, ?_, rfl⟩
  · exact ticks_no_callback 1 (notify_clear s) rfl
  · exact ticks_no_callback 1 (notify_context ctx (notify_clear s)) rfl
  · intro c hc
    rcases ticks_pendsv_mem n3 _ c hc with h | h
    · left
      rw [← k2]; exact h
    · right
      obtain ⟨h1, h2⟩ := h
      exact ⟨h1, by rw [h2]; exact x2⟩

/-- While the product `o_count * cycle` fits 32 bits the rescaled offset is
the exact quotient, and with an unchanged cycle it is the old offset. -/
theorem rescaled_exact (f : Nat) (s : State) (hnw : enable_o_count s * enable_cycle f < U32) :
    enable_rescaled f s = enable_o_count s * enable_cycle f / s.cycle ∧
    (enable_cycle f = s.cycle → 1 ≤ s.cycle → enable_rescaled f s = enable_o_count s) := by
  have h : enable_rescaled f s = enable_o_count s * enable_cycle f / s.cycle := by
    unfold enable_rescaled; rw [Nat.mod_eq_of_lt hnw]
  refine ⟨h, ?_⟩
  intro hc h1
  rw [h, hc]
  exact Nat.mul_div_cancel _ (by omega)

/-- With old and new cycle at most 65535 the product `o_count * cycle` fits
32 bits. -/
theorem rescale_product_fits (f : Nat) (s : State) (ho : enable_o_count s < s.cycle)
    (hold : s.cycle ≤ 65535) (hnew : enable_cycle f ≤ 65535) :
    enable_o_count s * enable_cycle f < U32 := by
  have h := Nat.mul_le_mul (show enable_o_count s ≤ 65535 by omega) hnew
  simp only [U32]; omega

/-- While the product `o_count * cycle` fits 32 bits, disable followed at
once by enable, with the cycle unchanged and the backup counter where it was,
restores the hardware counter and leaves `millis` as it is. -/
theorem disable_enable_restores (s : State) (f rtc fuel : Nat) (hfuel : 2 ≤ fuel)
    (ho : enable_o_count s < s.cycle) (hfreq : enable_cycle f = s.cycle)
    (hnw : enable_o_count s * s.cycle < U32) (hV : s.VAL < U32) (hm : s.millis < U64) :
    ∃ t, armv7m_systick_enable fuel f rtc (armv7m_systick_disable rtc s) = some t ∧
      t.VAL = s.VAL ∧ t.millis = s.millis ∧ t.micros = (s.millis * 1000) % U64 := by
  have hc : 1 ≤ enable_cycle f := by rw [hfreq]; omega
  have hcU : enable_cycle f < U32 := Nat.mod_lt _ (by decide)
  obtain ⟨t, carry, hres, hcar, _, hmil, hmic, hval, _⟩ :=
    enable_eq fuel f rtc (armv7m_systick_disable rtc s) hfuel ho hc
  have hd : enable_delta rtc (armv7m_systick_disable rtc s) = 0 := by
    rw [delta_after_disable]
    simp only [sub64, U64]; omega
  have hsub : enable_submillis f rtc (armv7m_systick_disable rtc s) = 0 := by
    unfold enable_submillis
    rw [hd]
    simp
  have hres0 : enable_rescaled f (armv7m_systick_disable rtc s) = enable_o_count s :=
    (rescaled_exact f (armv7m_systick_disable rtc s) (by rw [hfreq]; exact hnw)).2 hfreq
      (by show 1 ≤ s.cycle; omega)
  have hcount : enable_count f rtc (armv7m_systick_disable rtc s) = enable_o_count s := by
    unfold enable_count
    rw [hsub, hres0, Nat.add_zero]
    apply Nat.mod_eq_of_lt
    rw [← hfreq] at ho; omega
  have hcar0 : carry = 0 := by
    rw [hcar, hcount, hfreq]
    simp only [ge_iff_le, ite_eq_right_iff]
    intro h; omega
  subst hcar0
  rw [hd] at hmil
  rw [hcount, hfreq] at hval
  have hmil' : t.millis = s.millis := by
    rw [hmil]
    show (s.millis + 0 * 1000 % U64 / 32768 + 0) % U64 = s.millis
    simp only [U64] at *; omega
  refine ⟨t, hres, ?_, hmil', ?_⟩
  · rw [hval]
    unfold enable_o_count at *
    rw [← hfreq] at ho ⊢
    simp only [sub32, U32] at *; omega
  · rw [hmic, hmil']

/-- C16 (failing input): at 80 MHz, old and new cycle both 80000, with the
old offset 60000 the 32-bit value the code computes is 6312, where the exact
quotient `60000 * 80000 / 80000` is 60000; disable followed at once by enable
with a backup delta of zero leaves `millis` and `micros` at 0 and moves the
hardware counter from 19999 to 73687. -/
theorem C16_rescale_wraps_at_80MHz :
    midPeriodState.cycle = 80000 ∧ enable_cycle 80000000 = 80000 ∧
    enable_o_count midPeriodState = 60000 ∧
    enable_rescaled 80000000 midPeriodState = 6312 ∧
    enable_o_count midPeriodState * enable_cycle 80000000 / midPeriodState.cycle = 60000 ∧
    midPeriodState.VAL = 19999 ∧
    (armv7m_systick_enable 2 80000000 5 (armv7m_systick_disable 5 midPeriodState)).map
      (fun t => (t.VAL, t.millis, t.micros)) = some (73687, 0, 0) := by
  decide

/-- C17: with an old offset below the old cycle (so the old cycle is at
least 1) and a new cycle `c` with `1 ≤ c < 2^17`, whatever the backup delta:
the rescaled offset is below `c`, the product of the sub-millisecond term
fits 32 bits and the term is below `c`, the count before the loop is below
`2 * c`, the loop returns within two evaluations of its condition, after no
iteration or one, with a count below `c`, and enable returns with the
hardware counter at `(c - 1) - count`, a value between 0 and `c - 1`. -/
theorem C17_enable_loop_one_iteration (s : State) (f rtc fuel : Nat) (hfuel : 2 ≤ fuel)
    (ho : enable_o_count s < s.cycle) (hc1 : 1 ≤ enable_cycle f)
    (hc17 : enable_cycle f < 131072) :
    enable_rescaled f s < enable_cycle f ∧
    (((enable_delta rtc s * 1000) % U64) % U32) % 32768 * enable_cycle f < U32 ∧
    enable_submillis f rtc s < enable_cycle f ∧
    enable_count f rtc s = enable_rescaled f s + enable_submillis f rtc s ∧
    enable_count f rtc s < 2 * enable_cycle f ∧
    ∃ cnt m u t,
      enableLoop fuel (enable_cycle f) (enable_count f rtc s) s.millis s.micros
        = some (cnt, m, u) ∧
      ((cnt = enable_count f rtc s ∧ m = s.millis) ∨
        (cnt + enable_cycle f = enable_count f rtc s ∧ m = (s.millis + 1) % U64)) ∧
      cnt < enable_cycle f ∧
      armv7m_systick_enable fuel f rtc s = some t ∧
      t.VAL = enable_cycle f - 1 - cnt ∧ cnt ≤ enable_cycle f - 1 ∧
      t.VAL ≤ enable_cycle f - 1 := by
  have hr : enable_rescaled f s < enable_cycle f := rescaled_lt _ _ _ ho hc1
  have ht : enable_submillis f rtc s < enable_cycle f :=
    submillis_lt _ _ (Nat.mod_lt _ (by decide)) hc1
  have hprod : (((enable_delta rtc s * 1000) % U64) % U32) % 32768 * enable_cycle f < U32 := by
    have := Nat.mul_lt_mul'' (Nat.mod_lt (((enable_delta rtc s * 1000) % U64) % U32)
      (by decide : 0 < 32768)) hc17
    exact Nat.lt_of_lt_of_le this (by decide)
  have hcount : enable_count f rtc s = enable_rescaled f s + enable_submillis f rtc s := by
    unfold enable_count
    apply Nat.mod_eq_of_lt
    simp only [U32]; omega
  obtain ⟨hlt, hU⟩ := enable_count_lt f rtc s ho hc1
  have hcU : enable_cycle f < U32 := Nat.mod_lt _ (by decide)
  have hloop := enableLoop_two fuel (enable_cycle f) (enable_count f rtc s) s.millis s.micros
    hfuel hc1 hcU hlt hU
  obtain ⟨t, carry, hres, hcar, _, _, _, hval, _, hclt, _⟩ := enable_eq fuel f rtc s hfuel ho hc1
  refine ⟨hr, hprod, ht, hcount, hlt, ?_⟩
  by_cases h : enable_count f rtc s ≥ enable_cycle f
  · simp only [h, if_true] at hloop hcar
    subst hcar
    rw [Nat.one_mul] at hval hclt
    exact ⟨_, _, _, t, hloop, Or.inr ⟨by omega, rfl⟩, hclt, hres, hval, by omega, by omega⟩
  · simp only [h, if_false] at hloop hcar
    subst hcar
    rw [Nat.zero_mul, Nat.sub_zero] at hval hclt
    exact ⟨_, _, _, t, hloop, Or.inl ⟨rfl, rfl⟩, hclt, hres, hval, by omega, by omega⟩

/-- Witness of C17: 80 MHz, disabled 60000 counts into a period, enabled with
a backup delta of 8209 counts. -/
theorem C17_enable_loop_one_iteration_witness :
    enable_o_count midPeriodState < midPeriodState.cycle ∧
    1 ≤ enable_cycle 80000000 ∧ enable_cycle 80000000 < 131072 ∧
    enable_rescaled 80000000 midPeriodState < enable_cycle 80000000 ∧
    enable_count 80000000 8209 midPeriodState < 2 * enable_cycle 80000000 :=
  ⟨by decide, by decide, by decide,
    (C17_enable_loop_one_iteration midPeriodState 80000000 8209 2
      (by decide) (by decide) (by decide) (by decide)).1,
    (C17_enable_loop_one_iteration midPeriodState 80000000 8209 2
      (by decide) (by decide) (by decide) (by decide)).2.2.2.2.1⟩

/-! ## Accuracy of the conversion in `armv7m_systick_micros` -/

/-- The increment of `armv7m_systick_micros` in the state left by
initialisation at `f`, with the counter `k` counts below `cycle - 1`, is the
unwrapped `k * scale / 2^22`. -/
theorem increment_at_offset (p f k : Nat) (s0 : State) (hlo : 1000 ≤ f) (hhi : f < U32)
    (hk : k < f / 1000) :
    micros_increment { ( armv7m_systick_initialize p f s0) with VAL := f / 1000 - 1 - k }
      = k * (4194304000000 / f) / 4194304 := by
  obtain ⟨hc, _, _, _, _, hs, _, _⟩ := init_fields p f s0 hlo hhi
  have b := offset_scale_bound f k hlo hhi (by omega)
  have hcU : f / 1000 < U32 := by simp only [U32] at *; omega
  have o : sub32 (sub32 (f / 1000) 1) (f / 1000 - 1 - k) = k := by
    simp only [sub32, U32] at *; omega
  show (sub32 (sub32 ( armv7m_systick_initialize p f s0).cycle 1) (f / 1000 - 1 - k)
    * ( armv7m_systick_initialize p f s0).scale) % U32 / 4194304 = _
  rw [hc, hs, o, Nat.mod_eq_of_lt (by simp only [U32]; omega)]

/-- The shifted product never exceeds the exact quotient. -/
theorem shifted_le_exact (f k : Nat) (hf : 0 < f) :
    k * (4194304000000 / f) / 4194304 ≤ exactMicros f k := by
  unfold exactMicros
  apply (Nat.le_div_iff_mul_le hf).2
  have h1 : k * (4194304000000 / f) / 4194304 * 4194304 ≤ k * (4194304000000 / f) :=
    Nat.div_mul_le_self _ _
  have h2 : 4194304000000 / f * f ≤ 4194304000000 := Nat.div_mul_le_self _ _
  have h3 : (k * (4194304000000 / f) / 4194304 * f) * 4194304
      ≤ (k * 1000000) * 4194304 := by
    calc (k * (4194304000000 / f) / 4194304 * f) * 4194304
        = (k * (4194304000000 / f) / 4194304 * 4194304) * f := by ring
      _ ≤ (k * (4194304000000 / f)) * f := Nat.mul_le_mul_right f h1
      _ = k * (4194304000000 / f * f) := by ring
      _ ≤ k * 4194304000000 := Nat.mul_le_mul_left k h2
      _ = (k * 1000000) * 4194304 := by ring
  exact Nat.le_of_mul_le_mul_right h3 (by decide)

/-- The exact quotient exceeds the shifted product by less than
`1 + k / 2^22`: `2^22` times the exact quotient is below `2^22` times the
successor of the shifted product, plus `k`. -/
theorem exact_lt_shifted (f k : Nat) (hf : 0 < f) :
    exactMicros f k * 4194304
      < (k * (4194304000000 / f) / 4194304 + 1) * 4194304 + k := by
  unfold exactMicros
  have h1 : k * 1000000 / f * f ≤ k * 1000000 := Nat.div_mul_le_self _ _
  have h2 : 4194304000000 < (4194304000000 / f + 1) * f :=
    (Nat.div_lt_iff_lt_mul hf).1 (Nat.lt_succ_self _)
  have h3 : k * (4194304000000 / f)
      < (k * (4194304000000 / f) / 4194304 + 1) * 4194304 :=
    (Nat.div_lt_iff_lt_mul (by decide)).1 (Nat.lt_succ_self _)
  have h4 : (k * 1000000 / f * 4194304) * f
      < ((k * (4194304000000 / f) / 4194304 + 1) * 4194304 + k) * f := by
    calc (k * 1000000 / f * 4194304) * f
        = (k * 1000000 / f * f) * 4194304 := by ring
      _ ≤ (k * 1000000) * 4194304 := Nat.mul_le_mul_right _ h1
      _ = k * 4194304000000 := by ring
      _ ≤ k * ((4194304000000 / f + 1) * f) := Nat.mul_le_mul_left k (Nat.le_of_lt h2)
      _ = (k * (4194304000000 / f) + k) * f := by ring
      _ < ((k * (4194304000000 / f) / 4194304 + 1) * 4194304 + k) * f :=
        Nat.mul_lt_mul_of_pos_right (by omega) hf
  exact Nat.lt_of_mul_lt_mul_right h4

/-- C18 (counterexample): at `f = 4293044013` (`cycle = 4293044`,
`scale = 976`) and offset `k = 4198598`, below the cycle, the computed
`(k * scale) >> 22` is 976 while the exact `k * 10^6 / f` is 978. -/
theorem C18_error_of_two_microseconds :
    1000 ≤ 4293044013 ∧ 4293044013 < U32 ∧ 4198598 < 4293044013 / 1000 ∧
    (initState 4293044013).scale = 2 ^ 22 * 1000000 / 4293044013 ∧
    micros_increment { initState 4293044013 with VAL := 4293044013 / 1000 - 1 - 4198598 }
      = 976 ∧
    exactMicros 4293044013 4198598 = 978 := by
  decide

/-- C18 (amended): for `1000 ≤ f < 2^32`, with `scale = 2^22 * 10^6 / f` as
initialisation stores it, and every offset `k` below `f / 1000`, the
increment `(k * scale) >> 22` computed by `armv7m_systick_micros` never exceeds
the exact `k * 10^6 / f` and is at least that value minus 2; it is at least
that value minus 1 whenever `k ≤ 2^22`, hence for every `f < 4194306000`. -/
theorem C18_conversion_accuracy (p f k : Nat) (s0 : State) (hlo : 1000 ≤ f) (hhi : f < U32)
    (hk : k < f / 1000) :
    ( armv7m_systick_initialize p f s0).scale = 2 ^ 22 * 1000000 / f ∧
    micros_increment { ( armv7m_systick_initialize p f s0) with VAL := f / 1000 - 1 - k }
      ≤ exactMicros f k ∧
    exactMicros f k
      ≤ micros_increment { ( armv7m_systick_initialize p f s0) with VAL := f / 1000 - 1 - k }
        + 2 ∧
    (k ≤ 4194304 → exactMicros f k
      ≤ micros_increment { ( armv7m_systick_initialize p f s0) with VAL := f / 1000 - 1 - k }
        + 1) ∧
    (f < 4194306000 → exactMicros f k
      ≤ micros_increment { ( armv7m_systick_initialize p f s0) with VAL := f / 1000 - 1 - k }
        + 1) := by
  have hs : ( armv7m_systick_initialize p f s0).scale = 2 ^ 22 * 1000000 / f := by
    rw [(init_fields p f s0 hlo hhi).2.2.2.2.2.1]; norm_num
  have hinc := increment_at_offset p f k s0 hlo hhi hk
  have hle := shifted_le_exact f k (by omega)
  have hlt := exact_lt_shifted f k (by omega)
  have hk2 : k < 8388608 := by simp only [U32] at hhi; omega
  rw [← hinc] at hle hlt
  refine ⟨hs, hle, ?_, ?_, ?_⟩
  · omega
  · intro h; omega
  · intro h; omega

/-- Witness of C18 (amended): 80 MHz, the last count of a period. -/
theorem C18_conversion_accuracy_witness :
    1000 ≤ 80000000 ∧ 80000000 < U32 ∧ 79999 < 80000000 / 1000 ∧
    micros_increment
        { ( armv7m_systick_initialize 0 80000000 zeroState) with
          VAL := 80000000 / 1000 - 1 - 79999 }
      ≤ exactMicros 80000000 79999 ∧
    (79999 ≤ 4194304 → exactMicros 80000000 79999
      ≤ micros_increment
          { ( armv7m_systick_initialize 0 80000000 zeroState) with
            VAL := 80000000 / 1000 - 1 - 79999 } + 1) :=
  ⟨by decide, by decide, by decide,
    (C18_conversion_accuracy 0 80000000 79999 zeroState
      (by decide) (by decide) (by decide)).2.1,
    (C18_conversion_accuracy 0 80000000 79999 zeroState
      (by decide) (by decide) (by decide)).2.2.2.1⟩

end Systick
